import Mathlib

/-
Verification of the todo backend (Express server `server.js`):

  let todos = [];
  let nextId = 1;
  app.get('/api/todos', ...)        -- returns the todos array
  app.post('/api/todos', ...)       -- validates `text`, pushes {id: nextId++, text: text.trim(), createdAt}
  app.delete('/api/todos/:id', ...) -- parseInt, findIndex, splice(i, 1)
  app.get('/api/health', ...)       -- returns a static status object

The JavaScript primitives the handlers rely on (`parseInt`,
`String.prototype.trim`, `Array.prototype.findIndex`, `Array.prototype.splice`)
are embedded below with their ECMAScript semantics.
-/

namespace TodoApp

open scoped List

/-- The set of characters JavaScript treats as whitespace in
`String.prototype.trim` and in `parseInt`'s leading-whitespace skip:
the WhiteSpace production (TAB, VT, FF, SP, NBSP, ZWNBSP and the Unicode
space separators) together with the LineTerminator production
(LF, CR, LS, PS). -/
def jsIsWhitespace (c : Char) : Bool :=
  c == '\x09' || c == '\x0a' || c == '\x0b' || c == '\x0c' || c == '\x0d' ||
  c == ' ' || c == ' ' || c == ' ' ||
  (' ' ≤ c && c ≤ ' ') ||
  c == ' ' || c == ' ' || c == ' ' || c == ' ' ||
  c == '　' || c == '﻿'

/-- `String.prototype.trim` on the character list: drop whitespace from the
front, then from the back. -/
def jsTrimList (l : List Char) : List Char :=
  ((l.dropWhile jsIsWhitespace).reverse.dropWhile jsIsWhitespace).reverse

/-- JavaScript `text.trim()`. -/
def jsTrim (s : String) : String := ⟨jsTrimList s.toList⟩

/-- Value of a decimal digit character, if it is one (code units 48-57 are
the digits 0-9). -/
def decDigitVal (c : Char) : Option Nat :=
  let u := c.toNat
  if 48 ≤ u ∧ u ≤ 57 then some (u - 48) else none

/-- Value of a hexadecimal digit character, if it is one (code units 97-102
are a-f, 65-70 are A-F). -/
def hexDigitVal (c : Char) : Option Nat :=
  let u := c.toNat
  if 48 ≤ u ∧ u ≤ 57 then some (u - 48)
  else if 97 ≤ u ∧ u ≤ 102 then some (u - 97 + 10)
  else if 65 ≤ u ∧ u ≤ 70 then some (u - 65 + 10)
  else none

/-- Accumulate the value of the longest digit run at the front of the list
(ECMAScript `parseInt` step: the longest numeral that is an initial
substring). -/
def parseDigits (dv : Char → Option Nat) (radix : Nat) : List Char → Nat → Nat
  | [], acc => acc
  | c :: cs, acc =>
    match dv c with
    | some d => parseDigits dv radix cs (acc * radix + d)
    | none => acc

/-- JavaScript `parseInt(string)` with no radix argument: skip leading
whitespace, read an optional sign, detect a `0x`/`0X` prefix (radix 16,
otherwise radix 10), then convert the longest initial digit run; `none`
models the `NaN` result when no digit follows. -/
def jsParseInt (s : String) : Option Int :=
  let l := s.toList.dropWhile jsIsWhitespace
  let signed : Int × List Char :=
    match l with
    | '-' :: rest => (-1, rest)
    | '+' :: rest => (1, rest)
    | _ => (1, l)
  let body : (Char → Option Nat) × Nat × List Char :=
    match signed.2 with
    | '0' :: 'x' :: rest => (hexDigitVal, 16, rest)
    | '0' :: 'X' :: rest => (hexDigitVal, 16, rest)
    | _ => (decDigitVal, 10, signed.2)
  match body.2.2 with
  | [] => none
  | c :: _ =>
    match body.1 c with
    | some _ => some (signed.1 * (parseDigits body.1 body.2.1 body.2.2 0 : Int))
    | none => none

/-- A todo record `{id, text, createdAt}`. -/
structure Todo where
  id : Int
  text : String
  createdAt : String
deriving DecidableEq

/-- The module-level mutable state: `let todos = []; let nextId = 1;`. -/
structure Store where
  todos : List Todo
  nextId : Int
deriving DecidableEq

/-- The state at process start. -/
def emptyStore : Store := { todos := [], nextId := 1 }

/-- JSON bodies the handlers can send. -/
inductive Body where
  | todoList (ts : List Todo)
  | todo (t : Todo)
  | errorObj (error : String)
  | empty
  | healthObj (status timestamp app description : String)
deriving DecidableEq

/-- An HTTP response: status code and JSON body. -/
structure Response where
  status : Nat
  body : Body
deriving DecidableEq

/-- The JSON value found at `req.body.text` after `express.json()` parsing:
absent (destructures to `undefined`), a string, or some non-string JSON
value. -/
inductive TextField where
  | absent
  | str (s : String)
  | num (n : Int)
  | boolean (b : Bool)
  | null
deriving DecidableEq

/-- `app.get('/api/todos')`: `res.json(todos)`; the store is not touched. -/
def getTodos (s : Store) : Response × Store :=
  ({ status := 200, body := Body.todoList s.todos }, s)

/-- `app.post('/api/todos')`. The guard
`!text || typeof text !== 'string' || text.trim() === ''` rejects every
non-string value (falsy ones at `!text`, truthy ones at the `typeof` test),
and rejects a string iff it is `''` or trims to `''`; otherwise
`{id: nextId++, text: text.trim(), createdAt}` is pushed. `now` stands for
`new Date().toISOString()`. -/
def postTodos (tf : TextField) (now : String) (s : Store) : Response × Store :=
  match tf with
  | TextField.str text =>
    if text == "" || jsTrim text == "" then
      ({ status := 400,
         body := Body.errorObj "Text is required and must be a non-empty string" }, s)
    else
      let newTodo : Todo := { id := s.nextId, text := jsTrim text, createdAt := now }
      ({ status := 201, body := Body.todo newTodo },
       { todos := s.todos ++ [newTodo], nextId := s.nextId + 1 })
  | _ =>
    ({ status := 400,
       body := Body.errorObj "Text is required and must be a non-empty string" }, s)

/-- `todos.findIndex(todo => todo.id === id)`, as an `Option Nat`
(`none` models the `-1` result). -/
def findIndexById (id : Int) : List Todo → Option Nat
  | [] => none
  | t :: ts => if t.id == id then some 0 else (findIndexById id ts).map (· + 1)

/-- `todos.splice(i, 1)`: remove the element at index `i`. -/
def spliceAt : List Todo → Nat → List Todo
  | [], _ => []
  | _ :: ts, 0 => ts
  | t :: ts, n + 1 => t :: spliceAt ts n

/-- `app.delete('/api/todos/:id')`: `parseInt` the path parameter (400 on
`NaN`), `findIndex` on `id` (404 on `-1`), else `splice` the record out and
answer 204. -/
def deleteTodo (idStr : String) (s : Store) : Response × Store :=
  match jsParseInt idStr with
  | none => ({ status := 400, body := Body.errorObj "Invalid todo ID" }, s)
  | some id =>
    match findIndexById id s.todos with
    | none => ({ status := 404, body := Body.errorObj "Todo not found" }, s)
    | some i =>
      ({ status := 204, body := Body.empty },
       { todos := spliceAt s.todos i, nextId := s.nextId })

/-- `app.get('/api/health')`: a static JSON object built from the clock and
the `APP_NAME` / `APP_DESCRIPTION` configuration; the store is not
touched. -/
def getHealth (now appName appDescription : String) (s : Store) : Response × Store :=
  ({ status := 200,
     body := Body.healthObj "OK" now appName appDescription }, s)

/-- One inbound request, as seen by the four routes. -/
inductive Op where
  | post (tf : TextField) (now : String)
  | del (idStr : String)
  | getList
  | getHealth (now appName appDescription : String)
deriving DecidableEq

/-- The store after handling one request. -/
def step (s : Store) : Op → Store
  | Op.post tf now => (postTodos tf now s).2
  | Op.del idStr => (deleteTodo idStr s).2
  | Op.getList => (getTodos s).2
  | Op.getHealth now a d => (getHealth now a d s).2

/-- The store after handling a sequence of requests. -/
def run : List Op → Store → Store
  | [], s => s
  | op :: ops, s => run ops (step s op)

/-- The record a request creates, read off its response body: a successful
insertion answers with `Body.todo`, every other request with a different
body shape. -/
def postedTodo (op : Op) (s : Store) : List Todo :=
  match op with
  | Op.post tf now =>
    match (postTodos tf now s).1.body with
    | Body.todo t => [t]
    | _ => []
  | _ => []

/-- The records created by successful insertions along a run, in order. -/
def insertedTodos : List Op → Store → List Todo
  | [], _ => []
  | op :: ops, s => postedTodo op s ++ insertedTodos ops (step s op)

/-- The ids assigned by successful insertions along a run, in order. -/
def runTrace (ops : List Op) (s : Store) : List Int :=
  (insertedTodos ops s).map Todo.id

/-! ### Library on the embedded array operations -/

lemma spliceAt_sublist (l : List Todo) (n : Nat) : spliceAt l n <+ l := by
  induction l generalizing n with
  | nil => simp [spliceAt]
  | cons t ts ih =>
    cases n with
    | zero => exact (List.sublist_cons_self t ts)
    | succ n => exact List.Sublist.cons₂ t (ih n)

lemma findIndexById_eq_none {id : Int} {l : List Todo}
    (h : ∀ t ∈ l, t.id ≠ id) : findIndexById id l = none := by
  induction l with
  | nil => rfl
  | cons t ts ih =>
    have ht : (t.id == id) = false := by simpa using h t (by simp)
    simp [findIndexById, ht, ih fun u hu => h u (by simp [hu])]

lemma find_splice_erase {l : List Todo} {id : Int} {t : Todo} (ht : t ∈ l)
    (hid : t.id = id) (hnodup : (l.map Todo.id).Nodup) :
    ∃ i, findIndexById id l = some i ∧ spliceAt l i = l.erase t := by
  induction l with
  | nil => cases ht
  | cons u us ih =>
    rw [List.map_cons, List.nodup_cons] at hnodup
    by_cases hu : u.id = id
    · have htu : t = u := by
        rcases List.mem_cons.mp ht with h | h
        · exact h
        · exact absurd (hu ▸ hid ▸ List.mem_map_of_mem Todo.id h) hnodup.1
      refine ⟨0, by simp [findIndexById, hu], ?_⟩
      rw [htu, List.erase_cons_head]
      rfl
    · have htus : t ∈ us := by
        rcases List.mem_cons.mp ht with h | h
        · exact absurd (h ▸ hid) hu
        · exact h
      obtain ⟨i, hfind, hsplice⟩ := ih htus hnodup.2
      have hu' : (u.id == id) = false := by simpa using hu
      refine ⟨i + 1, by simp [findIndexById, hu', hfind], ?_⟩
      have hne : (u == t) = false := by
        simp only [beq_eq_false_iff_ne]
        exact fun h => hu (h ▸ hid)
      rw [List.erase_cons, hne]
      simp [spliceAt, hsplice]

lemma deleteTodo_nextId (idStr : String) (s : Store) :
    (deleteTodo idStr s).2.nextId = s.nextId := by
  rcases h : jsParseInt idStr with _ | id
  · simp [deleteTodo, h]
  · rcases h2 : findIndexById id s.todos with _ | i
    · simp [deleteTodo, h, h2]
    · simp [deleteTodo, h, h2]

lemma deleteTodo_todos_sublist (idStr : String) (s : Store) :
    (deleteTodo idStr s).2.todos <+ s.todos := by
  rcases h : jsParseInt idStr with _ | id
  · simp [deleteTodo, h]
  · rcases h2 : findIndexById id s.todos with _ | i
    · simp [deleteTodo, h, h2]
    · simp only [deleteTodo, h, h2]
      exact spliceAt_sublist s.todos i

/-- Exhaustive description of the create handler: either the `text` field is
a string with non-whitespace content and the handler appends a fresh record,
or it answers 400 and returns the store unchanged. -/
lemma postTodos_cases (tf : TextField) (now : String) (s : Store) :
    (∃ text, tf = TextField.str text ∧ jsTrim text ≠ "" ∧
      postTodos tf now s =
        ({ status := 201,
           body := Body.todo { id := s.nextId, text := jsTrim text, createdAt := now } },
         { todos := s.todos ++ [{ id := s.nextId, text := jsTrim text, createdAt := now }],
           nextId := s.nextId + 1 })) ∨
    postTodos tf now s =
      ({ status := 400,
         body := Body.errorObj "Text is required and must be a non-empty string" }, s) := by
  cases tf with
  | str text =>
    by_cases h : jsTrim text = ""
    · right
      have h2 : (jsTrim text == "") = true := by simpa using h
      simp [postTodos, h2]
    · left
      have h1 : (text == "") = false := by
        have hne : text ≠ "" := fun he => h (by rw [he]; rfl)
        simpa using hne
      have h2 : (jsTrim text == "") = false := by simpa using h
      exact ⟨text, rfl, h, by simp [postTodos, h1, h2]⟩
  | absent => right; rfl
  | num n => right; rfl
  | boolean b => right; rfl
  | null => right; rfl

/-! ### The store invariant and its preservation -/

/-- The counter is at least its initial value `1`, every stored id lies in
`[1, nextId)`, and the stored ids are strictly increasing along the list. -/
def StoreInv (s : Store) : Prop :=
  1 ≤ s.nextId ∧ (∀ t ∈ s.todos, 1 ≤ t.id ∧ t.id < s.nextId) ∧
  List.Pairwise (fun a b : Int => a < b) (s.todos.map Todo.id)

lemma storeInv_empty : StoreInv emptyStore := by
  refine ⟨le_refl 1, ?_, ?_⟩ <;> simp [emptyStore]

lemma storeInv_delete (idStr : String) (s : Store) (h : StoreInv s) :
    StoreInv (deleteTodo idStr s).2 := by
  obtain ⟨h1, h2, h3⟩ := h
  have hnext := deleteTodo_nextId idStr s
  have hsub := deleteTodo_todos_sublist idStr s
  refine ⟨by rw [hnext]; exact h1, fun t ht => ?_, ?_⟩
  · obtain ⟨ha, hb⟩ := h2 t (hsub.subset ht)
    exact ⟨ha, by rw [hnext]; exact hb⟩
  · exact h3.sublist (hsub.map Todo.id)


lemma storeInv_post (tf : TextField) (now : String) (s : Store) (h : StoreInv s) :
    StoreInv (postTodos tf now s).2 := by
  obtain ⟨h1, h2, h3⟩ := h
  rcases postTodos_cases tf now s with ⟨text, _, _, heq⟩ | heq
  · have hnext : (postTodos tf now s).2.nextId = s.nextId + 1 := by simp [heq]
    have htodos : (postTodos tf now s).2.todos =
        s.todos ++ [{ id := s.nextId, text := jsTrim text, createdAt := now }] := by
      simp [heq]
    refine ⟨?_, fun t ht => ?_, ?_⟩
    · rw [hnext]; omega
    · rw [htodos] at ht
      rcases List.mem_append.mp ht with ht | ht
      · obtain ⟨ha, hb⟩ := h2 t ht
        exact ⟨ha, by rw [hnext]; omega⟩
      · rw [List.mem_singleton.mp ht]
        exact ⟨h1, by show s.nextId < (postTodos tf now s).2.nextId; omega⟩
    · have hmap : (postTodos tf now s).2.todos.map Todo.id =
          s.todos.map Todo.id ++ [s.nextId] := by
        rw [htodos]; simp
      rw [hmap]
      refine List.pairwise_append.mpr ⟨h3, by simp, ?_⟩
      intro a ha b hb
      rw [List.mem_singleton.mp hb]
      obtain ⟨t, htm, rfl⟩ := List.mem_map.mp ha
      exact (h2 t htm).2
  · have hst : (postTodos tf now s).2 = s := by simp [heq]
    rw [hst]
    exact ⟨h1, h2, h3⟩

lemma storeInv_step (s : Store) (op : Op) (h : StoreInv s) : StoreInv (step s op) := by
  cases op with
  | post tf now => exact storeInv_post tf now s h
  | del idStr => exact storeInv_delete idStr s h
  | getList => exact h
  | getHealth now a d => exact h

lemma storeInv_run : ∀ (ops : List Op) (s : Store), StoreInv s → StoreInv (run ops s)
  | [], _, h => h
  | op :: ops, s, h => storeInv_run ops (step s op) (storeInv_step s op h)

/-! ### Counter monotonicity and the trace of assigned ids -/

lemma postTodos_nextId_le (tf : TextField) (now : String) (s : Store) :
    s.nextId ≤ (postTodos tf now s).2.nextId := by
  rcases postTodos_cases tf now s with ⟨text, _, _, heq⟩ | heq
  · have hnext : (postTodos tf now s).2.nextId = s.nextId + 1 := by simp [heq]
    rw [hnext]; omega
  · have hst : (postTodos tf now s).2 = s := by simp [heq]
    rw [hst]

lemma step_nextId_le (s : Store) (op : Op) : s.nextId ≤ (step s op).nextId := by
  cases op with
  | post tf now => exact postTodos_nextId_le tf now s
  | del idStr => exact le_of_eq (deleteTodo_nextId idStr s).symm
  | getList => exact le_refl _
  | getHealth now a d => exact le_refl _

lemma run_nextId_le : ∀ (ops : List Op) (s : Store), s.nextId ≤ (run ops s).nextId
  | [], _ => le_refl _
  | op :: ops, s =>
    le_trans (step_nextId_le s op) (run_nextId_le ops (step s op))

lemma postedTodo_del (idStr : String) (s : Store) : postedTodo (Op.del idStr) s = [] := rfl

lemma postedTodo_getList (s : Store) : postedTodo Op.getList s = [] := rfl

lemma postedTodo_getHealth (now a d : String) (s : Store) :
    postedTodo (Op.getHealth now a d) s = [] := rfl

/-- Records created along a run carry ids at least the starting counter. -/
lemma insertedTodos_lb : ∀ (ops : List Op) (s : Store),
    ∀ t ∈ insertedTodos ops s, s.nextId ≤ t.id := by
  intro ops
  induction ops with
  | nil => intro s t ht; simp [insertedTodos] at ht
  | cons op rest ih =>
    intro s t ht
    rw [insertedTodos] at ht
    rcases List.mem_append.mp ht with ht | ht
    · cases op with
      | post tf now =>
        rcases postTodos_cases tf now s with ⟨text, _, _, heq⟩ | heq <;>
          simp [postedTodo, heq] at ht
        rw [ht]
      | del idStr => rw [postedTodo_del] at ht; cases ht
      | getList => rw [postedTodo_getList] at ht; cases ht
      | getHealth now a d => rw [postedTodo_getHealth] at ht; cases ht
    · exact le_trans (step_nextId_le s op) (ih (step s op) t ht)

/-- The records created along a run have strictly increasing ids. -/
lemma insertedTodos_pairwise : ∀ (ops : List Op) (s : Store),
    List.Pairwise (fun a b : Todo => a.id < b.id) (insertedTodos ops s) := by
  intro ops
  induction ops with
  | nil => intro s; simp [insertedTodos]
  | cons op rest ih =>
    intro s
    rw [insertedTodos]
    refine List.pairwise_append.mpr ⟨?_, ih (step s op), ?_⟩
    · cases op with
      | post tf now =>
        rcases postTodos_cases tf now s with ⟨text, _, _, heq⟩ | heq <;>
          simp [postedTodo, heq]
      | del idStr => rw [postedTodo_del]; exact List.Pairwise.nil
      | getList => rw [postedTodo_getList]; exact List.Pairwise.nil
      | getHealth now a d => rw [postedTodo_getHealth]; exact List.Pairwise.nil
    · intro a ha b hb
      have hb' := insertedTodos_lb rest (step s op) b hb
      cases op with
      | post tf now =>
        rcases postTodos_cases tf now s with ⟨text, _, _, heq⟩ | heq <;>
          simp [postedTodo, heq] at ha
        have hstep : (step s (Op.post tf now)).nextId = s.nextId + 1 := by
          simp [step, heq]
        rw [hstep] at hb'
        rw [ha]
        have : ({ id := s.nextId, text := jsTrim text, createdAt := now } : Todo).id =
            s.nextId := rfl
        rw [this]
        omega
      | del idStr => rw [postedTodo_del] at ha; cases ha
      | getList => rw [postedTodo_getList] at ha; cases ha
      | getHealth now a d => rw [postedTodo_getHealth] at ha; cases ha

/-! ### Survivors keep their insertion order -/

lemma run_todos_sublist : ∀ (ops : List Op) (s : Store),
    List.Sublist (run ops s).todos (s.todos ++ insertedTodos ops s) := by
  intro ops
  induction ops with
  | nil => intro s; simp [run, insertedTodos]
  | cons op rest ih =>
    intro s
    rw [run, insertedTodos]
    have ihs := ih (step s op)
    cases op with
    | post tf now =>
      rcases postTodos_cases tf now s with ⟨text, _, _, heq⟩ | heq
      · have hchunk : postedTodo (Op.post tf now) s =
            [{ id := s.nextId, text := jsTrim text, createdAt := now }] := by
          simp [postedTodo, heq]
        have hstep : step s (Op.post tf now) =
            { todos := s.todos ++ [{ id := s.nextId, text := jsTrim text, createdAt := now }],
              nextId := s.nextId + 1 } := by
          simp [step, heq]
        rw [hchunk, hstep]
        rw [hstep] at ihs
        simpa [List.append_assoc] using ihs
      · have hchunk : postedTodo (Op.post tf now) s = [] := by
          simp [postedTodo, heq]
        have hstep : step s (Op.post tf now) = s := by
          simp [step, heq]
        rw [hchunk, hstep]
        rw [hstep] at ihs
        simpa using ihs
    | del idStr =>
      have hchunk : postedTodo (Op.del idStr) s = [] := rfl
      have hsub : List.Sublist (step s (Op.del idStr)).todos s.todos :=
        deleteTodo_todos_sublist idStr s
      rw [hchunk, List.nil_append]
      exact ihs.trans
        (List.Sublist.append hsub (List.Sublist.refl (insertedTodos rest (step s (Op.del idStr)))))
    | getList =>
      rw [postedTodo_getList]
      simpa using ihs
    | getHealth now a d =>
      rw [postedTodo_getHealth]
      simpa using ihs

/-! ### Trimming facts -/

lemma dropWhile_head_false {α : Type} {p : α → Bool} :
    ∀ {l : List α} {a : α} {t : List α}, l.dropWhile p = a :: t → p a = false := by
  intro l
  induction l with
  | nil => intro a t h; simp [List.dropWhile] at h
  | cons c cs ih =>
    intro a t h
    cases hpc : p c with
    | true =>
      rw [List.dropWhile_cons, if_pos (by simp [hpc])] at h
      exact ih h
    | false =>
      rw [List.dropWhile_cons, if_neg (by simp [hpc])] at h
      injection h with h1 _
      rw [← h1]
      exact hpc

lemma dropWhile_eq_self_of_head {α : Type} {p : α → Bool} {l : List α}
    (h : ∀ a t, l = a :: t → p a = false) : l.dropWhile p = l := by
  cases l with
  | nil => rfl
  | cons c cs => rw [List.dropWhile_cons, if_neg (by simp [h c cs rfl])]

lemma dropWhile_getLast? {α : Type} {p : α → Bool} :
    ∀ l : List α, l.dropWhile p ≠ [] → (l.dropWhile p).getLast? = l.getLast? := by
  intro l
  induction l with
  | nil => intro h; exact absurd rfl h
  | cons c cs ih =>
    intro h
    cases hpc : p c with
    | false => rw [List.dropWhile_cons, if_neg (by simp [hpc])]
    | true =>
      rw [List.dropWhile_cons, if_pos (by simp [hpc])] at h ⊢
      rw [ih h]
      have hcs : cs ≠ [] := by
        intro he
        rw [he] at h
        exact h rfl
      cases cs with
      | nil => exact absurd rfl hcs
      | cons d ds => rw [List.getLast?_cons_cons]

lemma jsTrimList_idem (l : List Char) : jsTrimList (jsTrimList l) = jsTrimList l := by
  cases hB : (l.dropWhile jsIsWhitespace).reverse.dropWhile jsIsWhitespace with
  | nil =>
    have h0 : jsTrimList l = [] := by unfold jsTrimList; rw [hB]; rfl
    rw [h0]
    rfl
  | cons b bs =>
    have hTrim : jsTrimList l = (b :: bs).reverse := by unfold jsTrimList; rw [hB]
    have hAne : l.dropWhile jsIsWhitespace ≠ [] := by
      intro he
      rw [he] at hB
      simp [List.dropWhile] at hB
    obtain ⟨a, as, hAeq⟩ : ∃ a as, l.dropWhile jsIsWhitespace = a :: as := by
      cases hx : l.dropWhile jsIsWhitespace with
      | nil => exact absurd hx hAne
      | cons x xs => exact ⟨x, xs, rfl⟩
    have hpa : jsIsWhitespace a = false := dropWhile_head_false hAeq
    have hBlast : (b :: bs).getLast? = some a := by
      have h1 : ((l.dropWhile jsIsWhitespace).reverse.dropWhile jsIsWhitespace).getLast? =
          (l.dropWhile jsIsWhitespace).reverse.getLast? :=
        dropWhile_getLast? _ (by rw [hB]; simp)
      rw [hB] at h1
      rw [h1, hAeq, List.getLast?_reverse]
      rfl
    have hstep1 : (b :: bs).reverse.dropWhile jsIsWhitespace = (b :: bs).reverse := by
      apply dropWhile_eq_self_of_head
      intro x t hx
      have hhd : (b :: bs).reverse.head? = some x := by rw [hx]; rfl
      rw [List.head?_reverse, hBlast] at hhd
      injection hhd with hxa
      rw [← hxa]
      exact hpa
    have hpb : jsIsWhitespace b = false := dropWhile_head_false hB
    rw [hTrim]
    show ((((b :: bs).reverse.dropWhile jsIsWhitespace).reverse).dropWhile
      jsIsWhitespace).reverse = (b :: bs).reverse
    rw [hstep1, List.reverse_reverse, List.dropWhile_cons, if_neg (by simp [hpb])]

lemma jsTrim_idem (s : String) : jsTrim (jsTrim s) = jsTrim s :=
  congrArg String.mk (jsTrimList_idem s.toList)

/-! ### Claims -/

/-- C1 (counterexample): the delete route does not answer 400 on every path
identifier that fails to denote an integer. The string `"1.5"` denotes no
integer, yet `parseInt` reads its `1` prefix: on a store holding the record
with id 1 the request answers 204 and deletes the record, and on the empty
store it answers 404 — in neither case the claimed 400. -/
theorem c1_counterexample :
    deleteTodo "1.5" { todos := [{ id := 1, text := "a", createdAt := "ts" }], nextId := 2 } =
      ({ status := 204, body := Body.empty }, { todos := [], nextId := 2 }) ∧
    deleteTodo "1.5" emptyStore =
      ({ status := 404, body := Body.errorObj "Todo not found" }, emptyStore) := by
  constructor
  · decide
  · decide

/-- C1 (amended): a DELETE request whose path identifier string yields `NaN`
under JavaScript `parseInt` — i.e. after optional whitespace, sign and `0x`
prefix no digit follows — answers 400 with `{error: "Invalid todo ID"}` and
leaves the store unchanged. -/
theorem c1_invalid_id_rejected (idStr : String) (s : Store)
    (h : jsParseInt idStr = none) :
    deleteTodo idStr s = ({ status := 400, body := Body.errorObj "Invalid todo ID" }, s) := by
  simp [deleteTodo, h]

/-- Witness for C1 (amended) at `idStr = "abc"` on the empty store. -/
theorem c1_invalid_id_rejected_witness :
    deleteTodo "abc" emptyStore =
      ({ status := 400, body := Body.errorObj "Invalid todo ID" }, emptyStore) :=
  c1_invalid_id_rejected "abc" emptyStore (by decide)

/-- C2: a POST whose `text` field is absent, not a string, or trims to the
empty string answers 400 with the fixed error message, and the store — the
whole todo sequence and the counter — is returned unchanged. -/
theorem c2_text_validation (tf : TextField) (now : String) (s : Store)
    (h : tf = TextField.absent ∨ (∀ text, tf ≠ TextField.str text) ∨
         ∃ text, tf = TextField.str text ∧ jsTrim text = "") :
    postTodos tf now s =
      ({ status := 400,
         body := Body.errorObj "Text is required and must be a non-empty string" }, s) := by
  cases tf with
  | str text =>
    have htrim : jsTrim text = "" := by
      rcases h with h | h | ⟨t2, ht2, htr⟩
      · exact absurd h (by simp)
      · exact absurd rfl (h text)
      · injection ht2 with he
        rw [he]
        exact htr
    have h2 : (jsTrim text == "") = true := by simpa using htrim
    simp [postTodos, h2]
  | absent => rfl
  | num n => rfl
  | boolean b => rfl
  | null => rfl

/-- Witness for C2 at the whitespace-only text `"   "` on the empty store. -/
theorem c2_text_validation_witness :
    postTodos (TextField.str "   ") "ts" emptyStore =
      ({ status := 400,
         body := Body.errorObj "Text is required and must be a non-empty string" },
       emptyStore) :=
  c2_text_validation (TextField.str "   ") "ts" emptyStore
    (Or.inr (Or.inr ⟨"   ", rfl, by decide⟩))

/-- C3: on a store whose ids are pairwise distinct, deleting an integer id
that is present answers 204 with an empty body and removes exactly that one
record — the count drops by one, the survivors keep their order, every other
record is kept, and the counter is untouched; deleting an absent integer id
answers 404 with `{error: "Todo not found"}` and leaves the store unchanged. -/
theorem c3_delete_semantics (s : Store) (idStr : String) (id : Int)
    (hparse : jsParseInt idStr = some id)
    (hnodup : (s.todos.map Todo.id).Nodup) :
    ((∀ t ∈ s.todos, t.id ≠ id) →
      deleteTodo idStr s = ({ status := 404, body := Body.errorObj "Todo not found" }, s)) ∧
    (∀ t ∈ s.todos, t.id = id →
      deleteTodo idStr s =
        ({ status := 204, body := Body.empty },
         { todos := s.todos.erase t, nextId := s.nextId }) ∧
      (s.todos.erase t).length + 1 = s.todos.length ∧
      List.Sublist (s.todos.erase t) s.todos ∧
      t ∉ s.todos.erase t ∧
      (∀ u ∈ s.todos, u ≠ t → u ∈ s.todos.erase t)) := by
  constructor
  · intro habs
    simp [deleteTodo, hparse, findIndexById_eq_none habs]
  · intro t ht hid
    obtain ⟨i, hfind, hsplice⟩ := find_splice_erase ht hid hnodup
    have hnodupT : s.todos.Nodup := hnodup.of_map
    refine ⟨?_, ?_, ?_, ?_, ?_⟩
    · simp [deleteTodo, hparse, hfind, hsplice]
    · have hlen := List.length_erase_of_mem ht
      have hpos : 0 < s.todos.length := List.length_pos_of_mem ht
      omega
    · exact List.erase_sublist t s.todos
    · intro hmem
      exact ((List.Nodup.mem_erase_iff hnodupT).mp hmem).1 rfl
    · intro u hu hne
      exact (List.mem_erase_of_ne hne).mpr hu

/-- Witness for C3: on the one-record store, deleting the present id 1
answers 204 and empties it; deleting the absent id 9 answers 404 and keeps
it. -/
theorem c3_delete_semantics_witness :
    deleteTodo "1" { todos := [{ id := 1, text := "a", createdAt := "ts" }], nextId := 2 } =
      ({ status := 204, body := Body.empty }, { todos := [], nextId := 2 }) ∧
    deleteTodo "9" { todos := [{ id := 1, text := "a", createdAt := "ts" }], nextId := 2 } =
      ({ status := 404, body := Body.errorObj "Todo not found" },
       { todos := [{ id := 1, text := "a", createdAt := "ts" }], nextId := 2 }) := by
  constructor
  · have h := ((c3_delete_semantics
        { todos := [{ id := 1, text := "a", createdAt := "ts" }], nextId := 2 } "1" 1
        (by decide) (by decide)).2
      { id := 1, text := "a", createdAt := "ts" } (by simp) rfl).1
    simpa using h
  · exact (c3_delete_semantics
        { todos := [{ id := 1, text := "a", createdAt := "ts" }], nextId := 2 } "9" 9
        (by decide) (by decide)).1 (by decide)

/-- C4: after any sequence of requests starting from the empty store, the
ids of the stored records are pairwise distinct. -/
theorem c4_ids_distinct (ops : List Op) :
    ((run ops emptyStore).todos.map Todo.id).Nodup := by
  have h := (storeInv_run ops emptyStore storeInv_empty).2.2
  exact h.imp (fun hab => ne_of_lt hab)

/-- C5: the ids handed out by successful insertions along any run from the
empty store are strictly increasing — each new id exceeds every earlier one,
deleted or not, so no id is ever reused; deletion never changes the counter,
and the counter never decreases across any run. -/
theorem c5_monotonic_ids (ops : List Op) :
    List.Pairwise (fun a b : Int => a < b) (runTrace ops emptyStore) ∧
    (∀ (idStr : String) (s : Store), (deleteTodo idStr s).2.nextId = s.nextId) ∧
    (∀ s : Store, s.nextId ≤ (run ops s).nextId) := by
  refine ⟨?_, fun idStr s => deleteTodo_nextId idStr s, fun s => run_nextId_le ops s⟩
  exact List.Pairwise.map Todo.id (fun a b hab => hab) (insertedTodos_pairwise ops emptyStore)

/-- C6: listing returns exactly the stored sequence; the stored sequence is
always a subsequence of the full insertion history in order — so survivors
appear in insertion order — and any single deletion leaves the survivors a
subsequence of the previous sequence. -/
theorem c6_insertion_order (ops : List Op) :
    (getTodos (run ops emptyStore)).1 =
      { status := 200, body := Body.todoList (run ops emptyStore).todos } ∧
    List.Sublist (run ops emptyStore).todos (insertedTodos ops emptyStore) ∧
    (∀ (idStr : String) (s : Store), List.Sublist (deleteTodo idStr s).2.todos s.todos) := by
  refine ⟨rfl, ?_, fun idStr s => deleteTodo_todos_sublist idStr s⟩
  have h := run_todos_sublist ops emptyStore
  simpa [emptyStore] using h

/-- C7: the concrete scenario. From the empty store, inserting `"a"` then
`"b"` lists `[{id:1,text:"a"},{id:2,text:"b"}]` in order; deleting id 1
lists `[{id:2,text:"b"}]`; inserting `"c"` then assigns id 3, not 1. The
timestamps are arbitrary. -/
theorem c7_scenario (t1 t2 t3 : String) :
    (getTodos (run [Op.post (TextField.str "a") t1, Op.post (TextField.str "b") t2]
        emptyStore)).1 =
      { status := 200,
        body := Body.todoList [{ id := 1, text := "a", createdAt := t1 },
                               { id := 2, text := "b", createdAt := t2 }] } ∧
    (getTodos (run [Op.post (TextField.str "a") t1, Op.post (TextField.str "b") t2,
        Op.del "1"] emptyStore)).1 =
      { status := 200, body := Body.todoList [{ id := 2, text := "b", createdAt := t2 }] } ∧
    (postTodos (TextField.str "c") t3
        (run [Op.post (TextField.str "a") t1, Op.post (TextField.str "b") t2,
          Op.del "1"] emptyStore)).1 =
      { status := 201, body := Body.todo { id := 3, text := "c", createdAt := t3 } } :=
  ⟨rfl, rfl, rfl⟩

/-- C8: an accepted insertion (`text` a string whose trim is non-empty)
answers 201 and stores exactly the trimmed text with a fresh id; the stored
text is non-empty and trimming it again changes nothing, so it carries no
surrounding whitespace. -/
theorem c8_trimmed_text (s : Store) (text now : String) (h : jsTrim text ≠ "") :
    postTodos (TextField.str text) now s =
      ({ status := 201,
         body := Body.todo { id := s.nextId, text := jsTrim text, createdAt := now } },
       { todos := s.todos ++ [{ id := s.nextId, text := jsTrim text, createdAt := now }],
         nextId := s.nextId + 1 }) ∧
    jsTrim text ≠ "" ∧
    jsTrim (jsTrim text) = jsTrim text := by
  refine ⟨?_, h, jsTrim_idem text⟩
  have h1 : (text == "") = false := by
    have hne : text ≠ "" := fun he => h (by rw [he]; rfl)
    simpa using hne
  have h2 : (jsTrim text == "") = false := by simpa using h
  simp [postTodos, h1, h2]

/-- Witness for C8: inserting `"  buy milk  "` stores `"buy milk"`. -/
theorem c8_trimmed_text_witness :
    postTodos (TextField.str "  buy milk  ") "ts" emptyStore =
      ({ status := 201,
         body := Body.todo { id := 1, text := "buy milk", createdAt := "ts" } },
       { todos := [{ id := 1, text := "buy milk", createdAt := "ts" }], nextId := 2 }) := by
  have htr : jsTrim "  buy milk  " = "buy milk" := by decide
  have h := (c8_trimmed_text emptyStore "  buy milk  " "ts" (by decide)).1
  rw [htr] at h
  exact h

/-- C9: GET `/api/todos` and GET `/api/health` leave the store — records,
order and counter — exactly as it was; only the post and delete routes can
mutate it. -/
theorem c9_reads_pure (s : Store) (now a d : String) :
    getTodos s = ({ status := 200, body := Body.todoList s.todos }, s) ∧
    (getTodos s).2 = s ∧
    (getHealth now a d s).2 = s ∧
    step s Op.getList = s ∧
    step s (Op.getHealth now a d) = s :=
  ⟨rfl, rfl, rfl, rfl, rfl⟩

/-- C10: on any store reachable from the empty one, a DELETE whose
identifier parses to an integer `n ≤ 0` (such as `"-5"` or `"0"`) is treated
as well-formed: it answers 404 with `{error: "Todo not found"}` — never
400 — and leaves the store unchanged, because every id ever issued is at
least 1. -/
theorem c10_nonpositive_id_not_found (ops : List Op) (idStr : String) (n : Int)
    (hparse : jsParseInt idStr = some n) (hn : n ≤ 0) :
    deleteTodo idStr (run ops emptyStore) =
      ({ status := 404, body := Body.errorObj "Todo not found" }, run ops emptyStore) := by
  have hinv := storeInv_run ops emptyStore storeInv_empty
  have habs : ∀ t ∈ (run ops emptyStore).todos, t.id ≠ n := by
    intro t ht he
    have h1 := (hinv.2.1 t ht).1
    omega
  simp [deleteTodo, hparse, findIndexById_eq_none habs]

/-- Witness for C10: after inserting one record, a DELETE with identifier
`"-5"` answers 404 and changes nothing. -/
theorem c10_nonpositive_id_not_found_witness :
    deleteTodo "-5" (run [Op.post (TextField.str "a") "ts"] emptyStore) =
      ({ status := 404, body := Body.errorObj "Todo not found" },
       run [Op.post (TextField.str "a") "ts"] emptyStore) :=
  c10_nonpositive_id_not_found [Op.post (TextField.str "a") "ts"] "-5" (-5)
    (by decide) (by decide)

end TodoApp
